import Mathlib

/-!
# Verification of the ibapi version-sync scripts

Shallow embedding of the version-resolution-and-sync pipeline implemented by
`.github/scripts/check_version.py` and `setup_ibapi.py`.  Pure logic
(version splitting, normalization and comparison; the ordered read fallback of
the version store; the install copy loop; the payload locator) is translated
into executable Lean definitions; filesystem state is made explicit
(`ProjectState`, `FS`, `FTree`) and Python exceptions become `Option`.
-/

/-! ## Splitting on dots

Python's `version.split('.')` on the character list of the string.
`"".split('.') == [""]`, `"a.b".split('.') == ["a", "b"]`, empty segments are
kept. -/

/-- `splitDots cs` models Python `str.split('.')` applied to the string whose
characters are `cs`: segments between occurrences of `'.'`, empty segments
kept, so the result is always nonempty. -/
def splitDots : List Char → List (List Char)
  | [] => [[]]
  | c :: rest =>
    let r := splitDots rest
    if c = '.' then [] :: r
    else (c :: r.headD []) :: r.tail

/-- Dot-separated components of a version string, as character lists.
Models `version.split('.')` in `check_version.py`. -/
def partsOf (v : String) : List (List Char) :=
  splitDots v.data

theorem splitDots_ne_nil (l : List Char) : splitDots l ≠ [] := by
  cases l with
  | nil => simp [splitDots]
  | cons c rest =>
    simp only [splitDots]
    split <;> simp

/-- Splitting distributes over a dot in the middle, exactly as Python's
`split` does. -/
theorem splitDots_append_dot (xs ys : List Char) :
    splitDots (xs ++ '.' :: ys) = splitDots xs ++ splitDots ys := by
  induction xs with
  | nil => simp [splitDots]
  | cons c rest ih =>
    obtain ⟨g, gs, hg⟩ := List.exists_cons_of_ne_nil (splitDots_ne_nil rest)
    by_cases hc : c = '.'
    · simp [List.cons_append, splitDots, hc, ih]
    · simp [List.cons_append, splitDots, hc, ih, hg]

/-! ## Parsing numeric components

`int(x)` in the comparison loop of `main` accepts (for the version strings in
scope here) a nonempty all-digit component; on anything else the Python call
raises `ValueError`, which nothing in `main` catches, so parsing is modelled
as `Option`. -/

/-- Value of a nonempty all-digit character list, `none` otherwise.  Models
Python `int(x)` restricted to the digit strings produced by the version
regexes, with `none` standing for the uncaught `ValueError`. -/
def digitsToNat (l : List Char) : Option Nat :=
  if l ≠ [] ∧ l.all Char.isDigit then
    some (l.foldl (fun n c => n * 10 + (c.toNat - 48)) 0)
  else none

/-- Models `[int(x) for x in version.split('.')]` (check_version.py lines
453-454): the whole list parses or the run crashes with `ValueError`. -/
def parseIntList : List (List Char) → Option (List Nat)
  | [] => some []
  | p :: ps =>
    match digitsToNat p, parseIntList ps with
    | some n, some ns => some (n :: ns)
    | _, _ => none

/-- All components of the parsed version list succeed, so the list parse
succeeds. -/
theorem parseIntList_isSome (l : List (List Char))
    (h : ∀ p ∈ l, (digitsToNat p).isSome) : ∃ ns, parseIntList l = some ns := by
  induction l with
  | nil => exact ⟨[], rfl⟩
  | cons p ps ih =>
    have hp := h p (by simp)
    obtain ⟨n, hn⟩ := Option.isSome_iff_exists.mp hp
    obtain ⟨ns, hns⟩ := ih (fun q hq => h q (by simp [hq]))
    exact ⟨n :: ns, by simp [parseIntList, hn, hns]⟩

/-! ## Version normalization and comparison -/

/-- `normalize_version` from `check_version.py` lines 326-343: `None`/empty
stays `none`, a two-component `major.minor` gets `".0"` appended, everything
else is returned unchanged.  (`if not version: return None` makes both `None`
and `""` map to `None`; in `main` the call is additionally guarded by
`if current_version`, which yields the same result.) -/
def normalize_version : Option String → Option String
  | none => none
  | some version =>
    if version = "" then none
    else if (partsOf version).length = 2 then some (version ++ ".0")
    else some version

/-- Tail of the comparison loop of `main` once the current-version components
are exhausted: every remaining current component is padded to `0`, so the
loop returns `true` at the first positive available component, keeps going on
`0`, and falls out with `false` at the end. -/
def anyPosTail : List Nat → Bool
  | [] => false
  | a0 :: arest => if 0 < a0 then true else anyPosTail arest

/-- The component comparison loop of `main` (check_version.py lines 457-465):
walk both integer lists left to right, treating a missing component as `0`;
the first position where the available (second) component is larger decides
`true`, the first position where it is smaller decides `false`, all-equal
gives `false`.  The iterations after the current list is exhausted are the
helper `anyPosTail`. -/
def compareLoop : List Nat → List Nat → Bool
  | [], a => anyPosTail a
  | c0 :: crest, [] => if 0 < c0 then false else compareLoop crest []
  | c0 :: crest, a0 :: arest =>
    if c0 < a0 then true
    else if a0 < c0 then false
    else compareLoop crest arest

/-- The version-comparison decision of `main` (check_version.py lines
442-468), as a function of the remote (page) version and the local baseline:
both are normalized, and only when both are present are they parsed to
integer component lists and compared; a remote with no local baseline is
unconditionally an update; no remote is unconditionally not an update.
`none` as result models the uncaught `ValueError` from `int(x)`. -/
def is_newer (remote baseline : Option String) : Option Bool :=
  match normalize_version remote, normalize_version baseline with
  | some a, some c =>
    match parseIntList (partsOf c), parseIntList (partsOf a) with
    | some currentParts, some availableParts =>
        some (compareLoop currentParts availableParts)
    | _, _ => none
  | some _, none => some true
  | none, _ => some false

/-- A syntactically valid `VersionString` in the sense of the spec's data
model: dot-separated, every component a nonempty digit string (so `int(x)`
succeeds on each component). -/
def validVersion (v : String) : Bool :=
  decide (v ≠ "") && (partsOf v).all (fun p => !p.isEmpty && p.all Char.isDigit)

/-- Component `i` of an integer tuple, padding missing trailing components
with `0`. -/
def padGet (l : List Nat) (i : Nat) : Nat :=
  l.getD i 0

/-- "The first component where the available tuple exceeds the current tuple,
all earlier components equal": the left-to-right integer-tuple order the spec
describes, with missing trailing components padded with `0`. -/
def firstDiffGt (c a : List Nat) : Prop :=
  ∃ i, padGet c i < padGet a i ∧ ∀ j < i, padGet a j = padGet c j

theorem padGet_nil (i : Nat) : padGet [] i = 0 := by
  simp [padGet]

theorem padGet_cons_zero (x : Nat) (xs : List Nat) : padGet (x :: xs) 0 = x := by
  simp [padGet]

theorem padGet_cons_succ (x : Nat) (xs : List Nat) (i : Nat) :
    padGet (x :: xs) (i + 1) = padGet xs i := by
  simp [padGet]

theorem firstDiffGt_congr {c c' a a' : List Nat}
    (hc : ∀ i, padGet c i = padGet c' i) (ha : ∀ i, padGet a i = padGet a' i) :
    firstDiffGt c a ↔ firstDiffGt c' a' := by
  unfold firstDiffGt
  rw [show padGet c = padGet c' from funext hc, show padGet a = padGet a' from funext ha]

theorem firstDiffGt_cons {c0 a0 : Nat} (crest arest : List Nat) (heq : a0 = c0) :
    firstDiffGt (c0 :: crest) (a0 :: arest) ↔ firstDiffGt crest arest := by
  subst heq
  constructor
  · rintro ⟨i, hlt, hall⟩
    match i with
    | 0 => simp [padGet_cons_zero] at hlt
    | k + 1 =>
      refine ⟨k, by simpa [padGet_cons_succ] using hlt, fun j hj => ?_⟩
      have := hall (j + 1) (by omega)
      simpa [padGet_cons_succ] using this
  · rintro ⟨k, hlt, hall⟩
    refine ⟨k + 1, by simpa [padGet_cons_succ] using hlt, fun j hj => ?_⟩
    match j with
    | 0 => simp [padGet_cons_zero]
    | m + 1 => simpa [padGet_cons_succ] using hall m (by omega)

theorem firstDiffGt_nil_right (c : List Nat) : ¬ firstDiffGt c [] := by
  rintro ⟨i, hlt, -⟩
  simp [padGet_nil] at hlt

theorem padGet_nil_eq_zero_cons (i : Nat) : padGet [] i = padGet [0] i := by
  match i with
  | 0 => simp [padGet]
  | k + 1 => simp [padGet]

theorem firstDiffGt_nil_cons_zero (arest : List Nat) :
    firstDiffGt [] (0 :: arest) ↔ firstDiffGt [] arest :=
  (firstDiffGt_congr padGet_nil_eq_zero_cons (fun _ => rfl)).trans
    (firstDiffGt_cons [] arest rfl)

theorem firstDiffGt_cons_zero_nil (crest : List Nat) :
    firstDiffGt (0 :: crest) [] ↔ firstDiffGt crest [] :=
  (firstDiffGt_congr (fun _ => rfl) padGet_nil_eq_zero_cons).trans
    (firstDiffGt_cons crest [] rfl)

theorem anyPosTail_iff_firstDiffGt (a : List Nat) :
    anyPosTail a = true ↔ firstDiffGt [] a := by
  induction a with
  | nil =>
    constructor
    · intro h; simp [anyPosTail] at h
    · rintro ⟨i, hlt, -⟩; simp [padGet_nil] at hlt
  | cons a0 arest ih =>
    by_cases h0 : 0 < a0
    · rw [show anyPosTail (a0 :: arest) = true from by
        simp only [anyPosTail]; rw [if_pos h0]]
      simp only [true_iff]
      exact ⟨0, by simp [padGet_nil, padGet_cons_zero]; omega, by omega⟩
    · have ha0 : a0 = 0 := by omega
      subst ha0
      rw [show anyPosTail (0 :: arest) = anyPosTail arest from by
        simp only [anyPosTail]; rw [if_neg h0]]
      rw [ih, firstDiffGt_nil_cons_zero]

/-- The comparison loop decides exactly the left-to-right padded
integer-tuple order. -/
theorem compareLoop_iff_firstDiffGt (c a : List Nat) :
    compareLoop c a = true ↔ firstDiffGt c a := by
  induction c generalizing a with
  | nil => exact anyPosTail_iff_firstDiffGt a
  | cons c0 crest ih =>
    match a with
    | [] =>
      by_cases h0 : 0 < c0
      · rw [show compareLoop (c0 :: crest) [] = false from by
          simp only [compareLoop]; rw [if_pos h0]]
        simp only [Bool.false_eq_true, false_iff]
        exact firstDiffGt_nil_right _
      · have hc0 : c0 = 0 := by omega
        subst hc0
        rw [show compareLoop (0 :: crest) [] = compareLoop crest [] from by
          simp only [compareLoop]; rw [if_neg h0]]
        rw [ih [], firstDiffGt_cons_zero_nil]
    | a0 :: arest =>
      by_cases hlt : c0 < a0
      · rw [show compareLoop (c0 :: crest) (a0 :: arest) = true from by
          simp only [compareLoop]; rw [if_pos hlt]]
        simp only [true_iff]
        exact ⟨0, by simp [padGet_cons_zero]; omega, by omega⟩
      · by_cases hgt : a0 < c0
        · rw [show compareLoop (c0 :: crest) (a0 :: arest) = false from by
            simp only [compareLoop]; rw [if_neg hlt, if_pos hgt]]
          simp only [Bool.false_eq_true, false_iff]
          rintro ⟨i, hi, hall⟩
          match i with
          | 0 => simp [padGet_cons_zero] at hi; omega
          | k + 1 =>
            have := hall 0 (by omega)
            simp [padGet_cons_zero] at this
            omega
        · have heq : a0 = c0 := by omega
          rw [show compareLoop (c0 :: crest) (a0 :: arest) = compareLoop crest arest from by
            simp only [compareLoop]; rw [if_neg hlt, if_neg hgt]]
          rw [ih arest, firstDiffGt_cons crest arest heq]

/-- Equal tuples are never "newer": the loop with both sides equal returns
`false`. -/
theorem compareLoop_self (c : List Nat) : compareLoop c c = false := by
  induction c with
  | nil => simp [compareLoop, anyPosTail]
  | cons c0 crest ih =>
    simp only [compareLoop]
    rw [if_neg (lt_irrefl c0), if_neg (lt_irrefl c0), ih]

/-! ## Validity lemmas for version strings -/

theorem validVersion_ne_empty {v : String} (h : validVersion v = true) : ¬ v = "" := by
  have h1 := ((Bool.and_eq_true _ _).mp h).1
  exact of_decide_eq_true h1

theorem validVersion_parts {v : String} (h : validVersion v = true) :
    ∀ p ∈ partsOf v, (digitsToNat p).isSome := by
  intro p hp
  have h2 := ((Bool.and_eq_true _ _).mp h).2
  have h3 := List.all_eq_true.mp h2 p hp
  have h4 := (Bool.and_eq_true _ _).mp h3
  have hne : p ≠ [] := by
    intro hpe; subst hpe; simp at h4
  have hd : p.all Char.isDigit = true := h4.2
  simp [digitsToNat, hne, hd]

theorem partsOf_append_dot_zero (v : String) :
    partsOf (v ++ ".0") = partsOf v ++ [['0']] := by
  unfold partsOf
  rw [String.data_append]
  rw [show (".0" : String).data = '.' :: ['0'] from rfl, splitDots_append_dot]
  rfl

/-- A valid version string survives normalization and the resulting
components all parse as integers. -/
theorem normalize_valid_parses {v : String} (h : validVersion v = true) :
    ∃ w, normalize_version (some v) = some w ∧
      ∃ ns, parseIntList (partsOf w) = some ns := by
  have hne : ¬ v = "" := validVersion_ne_empty h
  have hparts := validVersion_parts h
  by_cases h2 : (partsOf v).length = 2
  · refine ⟨v ++ ".0", by simp [normalize_version, hne, h2], ?_⟩
    apply parseIntList_isSome
    intro p hp
    rw [partsOf_append_dot_zero] at hp
    rcases List.mem_append.mp hp with hp | hp
    · exact hparts p hp
    · simp at hp; subst hp; decide
  · exact ⟨v, by simp [normalize_version, hne, h2], parseIntList_isSome _ hparts⟩

/-! ## Claims about version comparison -/

/-- Claim C4: version comparison normalizes a two-component version by appending a
zero micro component, then compares component-wise left-to-right over integer
tuples padded with `0`, not in string order; in particular
`is_newer("10.37", "10.37.0")` is false and `is_newer("10.38", "10.37.5")` is
true. -/
theorem version_comparison_normalized :
    (∀ v : String, (partsOf v).length = 2 →
        normalize_version (some v) = some (v ++ ".0"))
    ∧ (∀ c a : List Nat, compareLoop c a = true ↔ firstDiffGt c a)
    ∧ is_newer (some "10.37") (some "10.37.0") = some false
    ∧ is_newer (some "10.38") (some "10.37.5") = some true := by
  refine ⟨?_, compareLoop_iff_firstDiffGt, by decide, by decide⟩
  intro v h2
  have hne : ¬ v = "" := fun hv => by subst hv; exact absurd h2 (by decide)
  simp [normalize_version, hne, h2]

theorem version_comparison_normalized_witness :
    normalize_version (some "10.37") = some ("10.37" ++ ".0")
    ∧ compareLoop [10, 37] [10, 38] = true :=
  ⟨version_comparison_normalized.1 "10.37" (by decide),
   (version_comparison_normalized.2.1 [10, 37] [10, 38]).mpr
     ⟨1, by decide, by decide⟩⟩

/-- Claim C5: `is_newer(v, v)` is false for every version string `v`: a remote
version equal to the local baseline never counts as an update. -/
theorem is_newer_self (v : String) (h : validVersion v = true) :
    is_newer (some v) (some v) = some false := by
  obtain ⟨w, hw, ns, hns⟩ := normalize_valid_parses h
  simp [is_newer, hw, hns, compareLoop_self]

theorem is_newer_self_witness :
    validVersion "10.37.2" = true
    ∧ is_newer (some "10.37.2") (some "10.37.2") = some false :=
  ⟨by decide, is_newer_self "10.37.2" (by decide)⟩

/-- Claim C6: with no local baseline every valid remote version counts as an
update, and with no remote version nothing counts as an update. -/
theorem is_newer_none_cases :
    (∀ r : String, validVersion r = true → is_newer (some r) none = some true)
    ∧ (∀ lo : Option String, is_newer none lo = some false) := by
  constructor
  · intro r hr
    have hne : ¬ r = "" := validVersion_ne_empty hr
    by_cases h2 : (partsOf r).length = 2 <;>
      simp [is_newer, normalize_version, hne, h2]
  · intro lo
    simp [is_newer, normalize_version]

theorem is_newer_none_cases_witness :
    validVersion "10.41" = true ∧ is_newer (some "10.41") none = some true :=
  ⟨by decide, is_newer_none_cases.1 "10.41" (by decide)⟩

/-! ## VersionStore model

State visible to `get_current_version` / `write_version_file`
(check_version.py lines 253-323) and to `read_version_file` /
`write_version_file` of setup_ibapi.py (lines 260-301): the two
channel-specific record files `.ibapi_stable_version` and
`.ibapi_latest_version`, the shared record file `.ibapi_version`, and the
`VERSION` triple embedded in the installed `ibapi/__init__.py`. -/

/-- One of the two release channels, the `version_type` CLI argument. -/
inductive Channel
  | stable
  | latest
deriving DecidableEq

/-- The string value of the `version_type` argument. -/
def channelName : Channel → String
  | .stable => "stable"
  | .latest => "latest"

/-- Observable state of one JSON record file.  `absent`: the file does not
exist; `malformed`: it exists but `json.load` raises (or the parsed value is
not a dict, so `data.get` raises) — both are caught and skipped; `parsed t
v`: it parses to a dict whose `type` and `version` string fields are `t` and
`v` (`none` for a missing field, matching `dict.get` returning `None`). -/
inductive RecordFile
  | absent
  | malformed
  | parsed (typeTag : Option String) (version : Option String)
deriving DecidableEq

/-- Project-root state read by the version store.  `ibapiInit` is the
`(major, minor, micro)` triple matched by the `VERSION = {...}` regex in
`ibapi/__init__.py`, `none` when the file is missing, unreadable, or the
regex does not match. -/
structure ProjectState where
  channelStable : RecordFile
  channelLatest : RecordFile
  mainFile : RecordFile
  ibapiInit : Option (Nat × Nat × Nat)
deriving DecidableEq

/-- The channel-specific record file `.ibapi_{version_type}_version`. -/
def channelFileOf (s : ProjectState) : Channel → RecordFile
  | .stable => s.channelStable
  | .latest => s.channelLatest

/-- Replace one channel-specific record file. -/
def setChannelFile (s : ProjectState) : Channel → RecordFile → ProjectState
  | .stable, rf => { s with channelStable := rf }
  | .latest, rf => { s with channelLatest := rf }

/-- `f"{major}.{minor}.{micro}"` as built by `get_version_from_ibapi` and by
the fallback branch of `get_current_version`. -/
def renderVersion : Nat × Nat × Nat → String
  | (a, b, c) => s!"{a}.{b}.{c}"

/-- The third fallback of `get_current_version` (lines 285-298): the version
string rebuilt from the regex match on `ibapi/__init__.py`, `none` when the
file is missing, unreadable or unmatched. -/
def initFallback (s : ProjectState) : Option String :=
  match s.ibapiInit with
  | some t => some (renderVersion t)
  | none => none

/-- `get_current_version` (check_version.py lines 253-300): return
`data.get('version')` of the channel-specific record file if it exists and
parses; else return `data.get('version')` of the shared `.ibapi_version`
file if it exists, parses, and its `type` tag equals the requested channel;
else fall back to the version embedded in `ibapi/__init__.py`; else `None`.
Read errors at every step are swallowed (`except Exception: pass`). -/
def get_current_version (s : ProjectState) (versionType : Channel) :
    Option String :=
  match channelFileOf s versionType with
  | .parsed _ v => v
  | _ =>
    match s.mainFile with
    | .parsed t v =>
        if t = some (channelName versionType) then v else initFallback s
    | _ => initFallback s

/-- `write_version_file` (check_version.py lines 303-323): write `{'type':
version_type, 'version': version_number}` to the channel-specific file
`.ibapi_{version_type}_version` only. -/
def write_version_file (s : ProjectState) (versionType : Channel)
    (versionNumber : String) : ProjectState :=
  setChannelFile s versionType
    (.parsed (some (channelName versionType)) (some versionNumber))

/-- `write_version_file` of setup_ibapi.py (lines 282-301): write the same
JSON object, but to the single shared `.ibapi_version` file. -/
def setup_write_version_file (s : ProjectState) (versionType : Channel)
    (versionNumber : String) : ProjectState :=
  { s with mainFile := .parsed (some (channelName versionType)) (some versionNumber) }

/-- `read_version_file` of setup_ibapi.py (lines 260-279): the parsed shared
record file, with no channel argument at all. -/
def setup_read_version_file (s : ProjectState) : RecordFile :=
  s.mainFile

/-- A record file "yields a version" when it exists, parses, and actually
carries a version string. -/
def recordVersionValue : RecordFile → Option String
  | .parsed _ (some v) => some v
  | _ => none

/-- The version the shared record file yields for a channel: its stored
version string, used only when its own `type` tag matches the channel. -/
def sharedVersionValue (s : ProjectState) (versionType : Channel) :
    Option String :=
  match s.mainFile with
  | .parsed t (some v) =>
      if t = some (channelName versionType) then some v else none
  | _ => none

/-- The read policy in the words of the spec and of claim C2: an ordered
fallback where the first source yielding a version value wins — the
channel-specific file, then the shared file (only when its tag matches),
then the version embedded in `ibapi/__init__.py`. -/
def versionReadSpecChain (s : ProjectState) (versionType : Channel) :
    Option String :=
  (recordVersionValue (channelFileOf s versionType)).or
    ((sharedVersionValue s versionType).or (initFallback s))

/-- Whether a record file exists and parses (regardless of its fields). -/
def recordParses : RecordFile → Bool
  | .parsed _ _ => true
  | _ => false

/-- Whether the shared record file exists, parses, and carries the tag of
the given channel, i.e. whether step 2 of `get_current_version` returns. -/
def sharedAppliesTo (s : ProjectState) (versionType : Channel) : Bool :=
  match s.mainFile with
  | .parsed t _ => t == some (channelName versionType)
  | _ => false

/-- The comparison-and-exit tail of `main` (check_version.py lines 442-503):
read the local baseline for the channel, compare it with the page-scraped
available version, and exit `0` when an update exists, `1` otherwise.
`none` models the uncaught `ValueError` when a tracked version has a
non-numeric component. -/
def run_main (s : ProjectState) (versionType : Channel)
    (availableVersion : Option String) : Option (Bool × Nat) :=
  match is_newer availableVersion (get_current_version s versionType) with
  | some hasUpdate => some (hasUpdate, if hasUpdate then 0 else 1)
  | none => none

/-! ## Claims about the version store -/

/-- Reads are insensitive to fields they do not consult: two states agreeing
on the requested channel's record file, the shared file, and the embedded
init version read the same. -/
theorem gcv_ignores_other (s s' : ProjectState) (vt : Channel)
    (h1 : channelFileOf s' vt = channelFileOf s vt)
    (h2 : s'.mainFile = s.mainFile) (h3 : s'.ibapiInit = s.ibapiInit) :
    get_current_version s' vt = get_current_version s vt := by
  unfold get_current_version initFallback
  rw [h1, h2, h3]

/-- Claim C2 counterexample: the code does not implement "first source
yielding a value wins".  A channel-specific file that parses but has no
`version` field terminates the chain with `None`, even though the shared
record file yields `"10.1.0"` for the same channel. -/
theorem get_current_version_spec_chain_counterexample :
    get_current_version
        { channelStable := .parsed (some "stable") none
          channelLatest := .absent
          mainFile := .parsed (some "stable") (some "10.1.0")
          ibapiInit := none } .stable = none
    ∧ versionReadSpecChain
        { channelStable := .parsed (some "stable") none
          channelLatest := .absent
          mainFile := .parsed (some "stable") (some "10.1.0")
          ibapiInit := none } .stable = some "10.1.0" := by
  exact ⟨by decide, by decide⟩

/-- Claim C2 (amended): `get_current_version` tries, in order, the
channel-specific record file, the shared record file (used only when its
`type` tag equals the requested channel), and the version embedded in
`ibapi/__init__.py` — except that a record file that exists and parses
terminates the chain with its stored `version` field even when that field is
absent (yielding none); absent or malformed record files fall through rather
than aborting, and when every source is absent or unparsable the result is
none. -/
theorem read_fallback_amended :
    ∀ (s : ProjectState) (vt : Channel),
      (∀ t v, channelFileOf s vt = .parsed t v → get_current_version s vt = v)
      ∧ (recordParses (channelFileOf s vt) = false →
          ∀ t v, s.mainFile = .parsed t v → t = some (channelName vt) →
            get_current_version s vt = v)
      ∧ (recordParses (channelFileOf s vt) = false →
          (∀ t v, s.mainFile = .parsed t v → ¬ t = some (channelName vt)) →
          get_current_version s vt = initFallback s)
      ∧ (recordParses (channelFileOf s vt) = false →
          recordParses s.mainFile = false → s.ibapiInit = none →
          get_current_version s vt = none)
      ∧ get_current_version (setChannelFile s vt .malformed) vt
          = get_current_version (setChannelFile s vt .absent) vt
      ∧ get_current_version { s with mainFile := .malformed } vt
          = get_current_version { s with mainFile := .absent } vt := by
  intro s vt
  refine ⟨?_, ?_, ?_, ?_, ?_, ?_⟩
  · intro t v h
    simp [get_current_version, h]
  · intro hp t v hm ht
    cases hc : channelFileOf s vt with
    | parsed t' v' => rw [hc] at hp; simp [recordParses] at hp
    | absent => simp [get_current_version, hc, hm, ht]
    | malformed => simp [get_current_version, hc, hm, ht]
  · intro hp hmain
    cases hc : channelFileOf s vt with
    | parsed t' v' => rw [hc] at hp; simp [recordParses] at hp
    | absent =>
      cases hm : s.mainFile with
      | parsed t v => simp [get_current_version, hc, hm, hmain t v hm]
      | absent => simp [get_current_version, hc, hm]
      | malformed => simp [get_current_version, hc, hm]
    | malformed =>
      cases hm : s.mainFile with
      | parsed t v => simp [get_current_version, hc, hm, hmain t v hm]
      | absent => simp [get_current_version, hc, hm]
      | malformed => simp [get_current_version, hc, hm]
  · intro hp hmp hi
    cases hc : channelFileOf s vt with
    | parsed t' v' => rw [hc] at hp; simp [recordParses] at hp
    | absent =>
      cases hm : s.mainFile with
      | parsed t v => rw [hm] at hmp; simp [recordParses] at hmp
      | absent => simp [get_current_version, hc, hm, initFallback, hi]
      | malformed => simp [get_current_version, hc, hm, initFallback, hi]
    | malformed =>
      cases hm : s.mainFile with
      | parsed t v => rw [hm] at hmp; simp [recordParses] at hmp
      | absent => simp [get_current_version, hc, hm, initFallback, hi]
      | malformed => simp [get_current_version, hc, hm, initFallback, hi]
  · cases vt <;>
      simp [get_current_version, setChannelFile, channelFileOf, initFallback]
  · cases vt <;>
      cases hc : s.channelStable <;> cases hl : s.channelLatest <;>
        simp [get_current_version, channelFileOf, initFallback, hc, hl]

theorem read_fallback_amended_witness :
    get_current_version
      { channelStable := .parsed (some "stable") (some "10.2.0")
        channelLatest := .absent
        mainFile := .absent
        ibapiInit := none } .stable = some "10.2.0" :=
  (read_fallback_amended _ .stable).1 (some "stable") (some "10.2.0") rfl

/-- Claim C3 counterexample: writing one channel's record through
setup_ibapi.py's `write_version_file` overwrites the single shared
`.ibapi_version` file, and thereby changes what the other channel's read
returns — before the stable write, reading `latest` sees `"10.2.0"` from the
latest-tagged shared record; afterwards it sees nothing. -/
theorem record_independence_counterexample :
    get_current_version
        { channelStable := .absent
          channelLatest := .absent
          mainFile := .parsed (some "latest") (some "10.2.0")
          ibapiInit := none } .latest = some "10.2.0"
    ∧ get_current_version
        (setup_write_version_file
          { channelStable := .absent
            channelLatest := .absent
            mainFile := .parsed (some "latest") (some "10.2.0")
            ibapiInit := none } .stable "10.9.0") .latest = none := by
  exact ⟨by decide, by decide⟩

/-- Claim C3 (amended): the channel-specific record files are independent —
check_version.py's `write_version_file` writes only the requested channel's
file, so the other channel's read result is unchanged, and a read never
depends on the other channel's channel-specific file.  (The single shared
`.ibapi_version` file written by setup_ibapi.py is, by contrast, one slot
shared by both channels, as the counterexample shows.) -/
theorem record_independence_amended :
    ∀ (s : ProjectState) (c c' : Channel) (v : String) (rf : RecordFile),
      c ≠ c' →
      get_current_version (write_version_file s c v) c'
          = get_current_version s c'
      ∧ get_current_version (setChannelFile s c rf) c'
          = get_current_version s c' := by
  intro s c c' v rf hne
  cases c <;> cases c' <;>
    first
      | exact absurd rfl hne
      | exact ⟨gcv_ignores_other _ _ _ rfl rfl rfl,
          gcv_ignores_other _ _ _ rfl rfl rfl⟩

theorem record_independence_amended_witness :
    Channel.stable ≠ Channel.latest
    ∧ get_current_version
        (write_version_file
          { channelStable := .absent
            channelLatest := .parsed (some "latest") (some "10.2.0")
            mainFile := .absent
            ibapiInit := none } .stable "10.9.0") .latest
      = get_current_version
          { channelStable := .absent
            channelLatest := .parsed (some "latest") (some "10.2.0")
            mainFile := .absent
            ibapiInit := none } .latest :=
  ⟨by decide,
   (record_independence_amended _ .stable .latest "10.9.0" .absent (by decide)).1⟩

/-- Claim C7: the process exit status of `main` is `0` exactly when
`has_update` is true, and `1` when no update is needed. -/
theorem exit_status_iff_update :
    ∀ (s : ProjectState) (vt : Channel) (available : Option String)
      (hu : Bool) (code : Nat),
      run_main s vt available = some (hu, code) → (code = 0 ↔ hu = true) := by
  intro s vt available hu code h
  unfold run_main at h
  cases hn : is_newer available (get_current_version s vt) with
  | none => rw [hn] at h; cases h
  | some b =>
    rw [hn] at h
    cases b <;> simp_all
    omega

theorem exit_status_iff_update_witness :
    run_main
        { channelStable := .absent, channelLatest := .absent,
          mainFile := .absent, ibapiInit := none } .stable (some "10.41")
      = some (true, 0)
    ∧ (0 = 0 ↔ true = true) :=
  ⟨by decide,
   exit_status_iff_update
     { channelStable := .absent, channelLatest := .absent,
       mainFile := .absent, ibapiInit := none }
     .stable (some "10.41") true 0 (by decide)⟩

/-- Claim C10 counterexample: the claim's precondition — neither the
channel-specific record file nor the shared record file yields a version —
can hold while the two channels still read different values: a stable record
file that parses without a `version` field yields no version yet blocks the
fallback for `stable` only, so `stable` reads none while `latest` reads the
embedded init version. -/
theorem channel_agnostic_fallback_counterexample :
    recordVersionValue
        (channelFileOf
          { channelStable := .parsed (some "stable") none
            channelLatest := .absent
            mainFile := .absent
            ibapiInit := some (10, 1, 0) } .stable) = none
    ∧ recordVersionValue
        (channelFileOf
          { channelStable := .parsed (some "stable") none
            channelLatest := .absent
            mainFile := .absent
            ibapiInit := some (10, 1, 0) } .latest) = none
    ∧ sharedVersionValue
        { channelStable := .parsed (some "stable") none
          channelLatest := .absent
          mainFile := .absent
          ibapiInit := some (10, 1, 0) } .stable = none
    ∧ sharedVersionValue
        { channelStable := .parsed (some "stable") none
          channelLatest := .absent
          mainFile := .absent
          ibapiInit := some (10, 1, 0) } .latest = none
    ∧ get_current_version
        { channelStable := .parsed (some "stable") none
          channelLatest := .absent
          mainFile := .absent
          ibapiInit := some (10, 1, 0) } .stable
      ≠ get_current_version
          { channelStable := .parsed (some "stable") none
            channelLatest := .absent
            mainFile := .absent
            ibapiInit := some (10, 1, 0) } .latest := by
  refine ⟨by decide, by decide, by decide, by decide, by decide⟩

/-- Claim C10 (amended): when, for each channel, the channel-specific record
file is absent or fails to parse and the shared record file does not exist,
parse and carry that channel's tag, both reads fall through to the version
embedded in `ibapi/__init__.py`, which does not depend on the requested
channel — so `get_current_version` with `stable` and with `latest` return
the same value. -/
theorem channel_agnostic_fallback_amended :
    ∀ s : ProjectState,
      recordParses s.channelStable = false →
      recordParses s.channelLatest = false →
      sharedAppliesTo s .stable = false →
      sharedAppliesTo s .latest = false →
      get_current_version s .stable = initFallback s
      ∧ get_current_version s .latest = initFallback s
      ∧ get_current_version s .stable = get_current_version s .latest := by
  intro s h1 h2 h3 h4
  have key : ∀ vt, recordParses (channelFileOf s vt) = false →
      sharedAppliesTo s vt = false →
      get_current_version s vt = initFallback s := by
    intro vt hcf hsh
    have harm2 : ∀ t v, s.mainFile = .parsed t v →
        ¬ t = some (channelName vt) := by
      intro t v hm
      unfold sharedAppliesTo at hsh
      rw [hm] at hsh
      simpa using hsh
    cases hc : channelFileOf s vt with
    | parsed t' v' => rw [hc] at hcf; simp [recordParses] at hcf
    | absent =>
      cases hm : s.mainFile with
      | parsed t v => simp [get_current_version, hc, hm, harm2 t v hm]
      | absent => simp [get_current_version, hc, hm]
      | malformed => simp [get_current_version, hc, hm]
    | malformed =>
      cases hm : s.mainFile with
      | parsed t v => simp [get_current_version, hc, hm, harm2 t v hm]
      | absent => simp [get_current_version, hc, hm]
      | malformed => simp [get_current_version, hc, hm]
  have hs := key .stable h1 h3
  have hl := key .latest h2 h4
  exact ⟨hs, hl, hs.trans hl.symm⟩

theorem channel_agnostic_fallback_amended_witness :
    get_current_version
        { channelStable := .absent, channelLatest := .absent,
          mainFile := .parsed (some "other") (some "9.0.0"),
          ibapiInit := some (10, 2, 5) } .stable
      = get_current_version
          { channelStable := .absent, channelLatest := .absent,
            mainFile := .parsed (some "other") (some "9.0.0"),
            ibapiInit := some (10, 2, 5) } .latest :=
  (channel_agnostic_fallback_amended _
    (by decide) (by decide) (by decide) (by decide)).2.2

/-! ## Installer model

`copy_files` (check_version.py lines 187-250, textually identical in
setup_ibapi.py lines 194-257) copies a fixed allow-list of top-level entries
from the payload directory into the destination, replacing entries of the
same name.  Only the top level is decided by the loop, so a directory tree
is modelled as a map from entry name to entry. -/

/-- A top-level entry as the copy loop sees it: whether it is a directory,
plus an opaque rendering of its entire contents (subtree or file body),
which `copytree`/`copy2` transport wholesale. -/
structure FSEntry where
  isDir : Bool
  content : String
deriving DecidableEq

/-- A directory level: map from entry name to entry, `none` = no entry. -/
def FS : Type :=
  String → Option FSEntry

/-- The fixed `items_to_copy` allow-list (the spec's InstallSet). -/
def items_to_copy : List String :=
  ["ibapi", "setup.py", "MANIFEST.in", "pylintrc", "README.md", "tests", "tox.ini"]

/-- Per-item outcome, matching the loop's three log messages. -/
inductive CopyOutcome
  | copied
  | warned
  | skipped
deriving DecidableEq

/-- One iteration of the copy loop (check_version.py lines 222-244).
`failsOn` says whether the `shutil` call for this item raises; the raised
exception is caught and reported as a warning, and is modelled as occurring
at the copy step, after the matching destination entry was already removed.
An item absent from the payload leaves the destination untouched and is
logged as skipped.  The directory branch (`rmtree` + `copytree`) and the
file branch (`unlink` + `copy2`) both replace the destination entry with
the source entry. -/
def copyStep (failsOn : String → Bool) (source : FS)
    (acc : FS × List CopyOutcome) (item : String) : FS × List CopyOutcome :=
  match source item with
  | none => (acc.1, acc.2 ++ [.skipped])
  | some e =>
    if failsOn item then
      (fun n => if n = item then none else acc.1 n, acc.2 ++ [.warned])
    else if e.isDir then
      (fun n => if n = item then some e else acc.1 n, acc.2 ++ [.copied])
    else
      (fun n => if n = item then some e else acc.1 n, acc.2 ++ [.copied])

/-- The whole copy loop of `copy_files`: fold over the fixed allow-list,
starting from the existing destination tree, producing the final tree and
the outcome log. -/
def copy_files_run (failsOn : String → Bool) (source dest : FS) :
    FS × List CopyOutcome :=
  items_to_copy.foldl (copyStep failsOn source) (dest, [])

/-- Final destination tree produced by `copy_files`. -/
def copy_files (failsOn : String → Bool) (source dest : FS) : FS :=
  (copy_files_run failsOn source dest).1

/-- Pointwise characterisation of the copy loop: an entry name in the list
with a payload entry ends up as the payload entry (or removed, if its copy
failed); every other name keeps its destination value. -/
theorem foldl_copyStep_apply (failsOn : String → Bool) (source : FS)
    (items : List String) (acc : FS × List CopyOutcome) (n : String) :
    ((items.foldl (copyStep failsOn source) acc).1) n =
      if n ∈ items ∧ (source n).isSome then
        (if failsOn n then none else source n)
      else acc.1 n := by
  induction items generalizing acc with
  | nil => simp
  | cons i rest ih =>
    simp only [List.foldl_cons]
    rw [ih]
    by_cases hr : n ∈ rest ∧ (source n).isSome
    · have h2 : n ∈ i :: rest ∧ (source n).isSome :=
        ⟨List.mem_cons_of_mem i hr.1, hr.2⟩
      rw [if_pos hr, if_pos h2]
    · rw [if_neg hr]
      by_cases hni : n = i
      · subst hni
        cases hs : source n with
        | none => simp [copyStep, hs]
        | some e =>
          rw [if_pos ⟨List.mem_cons_self n rest, by simp [hs]⟩]
          by_cases hf : failsOn n
          · simp [copyStep, hs, hf]
          · cases hdir : e.isDir <;> simp [copyStep, hs, hf, hdir]
      · have hcond : ¬ (n ∈ i :: rest ∧ (source n).isSome) := by
          rintro ⟨hm, hsome⟩
          rcases List.mem_cons.mp hm with h | h
          · exact hni h
          · exact hr ⟨h, hsome⟩
        rw [if_neg hcond]
        cases hs : source i with
        | none => simp [copyStep, hs]
        | some e =>
          by_cases hf : failsOn i
          · simp [copyStep, hs, hf, hni]
          · cases hdir : e.isDir <;> simp [copyStep, hs, hf, hdir, hni]

/-- The loop logs exactly one outcome per item: no iteration aborts it. -/
theorem foldl_copyStep_log_length (failsOn : String → Bool) (source : FS)
    (items : List String) (acc : FS × List CopyOutcome) :
    ((items.foldl (copyStep failsOn source) acc).2).length
      = acc.2.length + items.length := by
  induction items generalizing acc with
  | nil => simp
  | cons i rest ih =>
    simp only [List.foldl_cons]
    rw [ih]
    cases hs : source i with
    | none => simp [copyStep, hs]; omega
    | some e =>
      by_cases hf : failsOn i
      · simp [copyStep, hs, hf]; omega
      · cases hdir : e.isDir <;> (simp [copyStep, hs, hf, hdir]; omega)

/-- Claim C1: the Installer removes an existing destination entry named `E`
only when the payload itself contains an entry named `E` — for every
destination tree, payload, failure behaviour, and name absent from the
payload, the destination entry of that name (in particular a pre-existing
`tests/` directory when the payload lacks `tests`) is left exactly as it
was. -/
theorem copy_files_preserves_absent (failsOn : String → Bool)
    (source dest : FS) (entryName : String) (h : source entryName = none) :
    copy_files failsOn source dest entryName = dest entryName := by
  unfold copy_files copy_files_run
  rw [foldl_copyStep_apply]
  rw [if_neg (by simp [h])]

theorem copy_files_preserves_absent_witness :
    (fun n => if n = "ibapi" then some ⟨true, "pkg"⟩ else none : FS) "tests"
      = none
    ∧ copy_files (fun _ => false)
        (fun n => if n = "ibapi" then some ⟨true, "pkg"⟩ else none)
        (fun n => if n = "tests" then some ⟨true, "old tests"⟩ else none)
        "tests"
      = (fun n => if n = "tests" then some ⟨true, "old tests"⟩ else none : FS)
          "tests" :=
  ⟨by decide,
   copy_files_preserves_absent (fun _ => false)
     (fun n => if n = "ibapi" then some ⟨true, "pkg"⟩ else none)
     (fun n => if n = "tests" then some ⟨true, "old tests"⟩ else none)
     "tests" (by decide)⟩

/-- Claim C9: the copy loop is best-effort — it processes every entry of the
fixed InstallSet, logging exactly one outcome per entry, so neither a caught
per-entry copy failure nor an entry absent from the payload aborts the run;
and an entry that is present in the payload and whose copy does not fail
lands in the destination regardless of any other entry's failure. -/
theorem copy_files_best_effort (failsOn : String → Bool) (source dest : FS) :
    ((copy_files_run failsOn source dest).2).length = items_to_copy.length
    ∧ ∀ item ∈ items_to_copy, ∀ e, source item = some e →
        failsOn item = false →
        copy_files failsOn source dest item = some e := by
  constructor
  · unfold copy_files_run
    rw [foldl_copyStep_log_length]
    simp
  · intro item hmem e hs hf
    unfold copy_files copy_files_run
    rw [foldl_copyStep_apply]
    rw [if_pos ⟨hmem, by simp [hs]⟩, if_neg (by simp [hf]), hs]

theorem copy_files_best_effort_witness :
    copy_files (fun n => n == "ibapi")
        (fun n => if n = "ibapi" then some ⟨true, "pkg"⟩
                  else if n = "tests" then some ⟨true, "new tests"⟩ else none)
        (fun _ => none) "tests" = some ⟨true, "new tests"⟩ :=
  (copy_files_best_effort (fun n => n == "ibapi")
      (fun n => if n = "ibapi" then some ⟨true, "pkg"⟩
                else if n = "tests" then some ⟨true, "new tests"⟩ else none)
      (fun _ => none)).2
    "tests" (by decide) ⟨true, "new tests"⟩ (by decide) (by decide)

/-! ## PayloadLocator model

The payload search shared by `perform_update` (check_version.py lines
386-404) and `main` of setup_ibapi.py (lines 361-391): find
`IBJts/source/pythonclient` in the extracted tree. -/

/-- A filesystem tree: a file, or a directory with its named children in
iteration order. -/
inductive FTree
  | file
  | dir (children : List (String × FTree))

/-- Python's `Path.is_dir()`. -/
def FTree.isDir : FTree → Bool
  | .file => false
  | .dir _ => true

/-- Children of a node (`iterdir` order); a file has none. -/
def FTree.children : FTree → List (String × FTree)
  | .file => []
  | .dir cs => cs

/-- Child of a node by name. -/
def lookupChild (t : FTree) (name : String) : Option FTree :=
  (t.children.find? (fun e => e.1 == name)).map Prod.snd

/-- Follow a relative path from a node. -/
def lookupPath : FTree → List String → Option FTree
  | t, [] => some t
  | t, n :: rest =>
    match lookupChild t n with
    | some c => lookupPath c rest
    | none => none

/-- Python's `Path.exists()` for a relative path under `t`. -/
def pathExists (t : FTree) (p : List String) : Bool :=
  (lookupPath t p).isSome

/-- The fixed relative path `IBJts/source/pythonclient` both scripts check. -/
def payloadRelPath : List String :=
  ["IBJts", "source", "pythonclient"]

/-- The test applied to each top-level entry in the fallback loop: it is a
directory and contains the fixed payload path one level deeper. -/
def nestedPayloadEntry (e : String × FTree) : Bool :=
  e.2.isDir && pathExists e.2 payloadRelPath

/-- The payload search: first test the fixed path directly under the
extraction root; otherwise scan the top-level entries in order and take the
first directory containing the fixed path one level deeper; `none` models
the fatal `LayoutError` exit ("Could not find IBJts/source/pythonclient
directory in extracted files"). -/
def locate_payload (root : FTree) : Option (List String) :=
  if pathExists root payloadRelPath then some payloadRelPath
  else
    match root.children.find? nestedPayloadEntry with
    | some e => some (e.1 :: payloadRelPath)
    | none => none

/-- `find?` returns the marked element when everything before it fails the
predicate. -/
theorem find?_append_first {α : Type} (p : α → Bool) (pre post : List α)
    (e : α) (hp : p e = true) (hpre : ∀ x ∈ pre, p x = false) :
    (pre ++ e :: post).find? p = some e := by
  induction pre with
  | nil => simpa using List.find?_cons_of_pos post hp
  | cons x rest ih =>
    have hx : ¬ p x := by simp [hpre x (by simp)]
    rw [List.cons_append, List.find?_cons_of_neg _ hx]
    exact ih (fun y hy => hpre y (by simp [hy]))

/-- Claim C8: the payload search checks the fixed path
`IBJts/source/pythonclient` directly under the extraction root first;
failing that, it scans the top-level entries in order and returns the fixed
path under the first directory containing it one level deeper; when neither
shape is present it fails with the LayoutError diagnostic; and no deeper
recursive search is performed — every successful result has one of the two
shapes, and a payload buried under two wrapper directories is not found. -/
theorem locate_payload_spec :
    (∀ root : FTree, pathExists root payloadRelPath = true →
        locate_payload root = some payloadRelPath)
    ∧ (∀ (root : FTree) (pre post : List (String × FTree)) (e : String × FTree),
        pathExists root payloadRelPath = false →
        root.children = pre ++ e :: post →
        nestedPayloadEntry e = true →
        (∀ x ∈ pre, nestedPayloadEntry x = false) →
        locate_payload root = some (e.1 :: payloadRelPath))
    ∧ (∀ root : FTree, pathExists root payloadRelPath = false →
        (∀ e ∈ root.children, nestedPayloadEntry e = false) →
        locate_payload root = none)
    ∧ (∀ (root : FTree) (p : List String), locate_payload root = some p →
        p = payloadRelPath ∨
          ∃ e ∈ root.children, nestedPayloadEntry e = true
            ∧ p = e.1 :: payloadRelPath)
    ∧ locate_payload
        (.dir [("wrap1", .dir [("wrap2", .dir [("IBJts", .dir [("source",
          .dir [("pythonclient", .dir [])])])])])]) = none := by
  refine ⟨?_, ?_, ?_, ?_, by decide⟩
  · intro root h
    unfold locate_payload
    rw [if_pos h]
  · intro root pre post e hdirect hch hpe hpre
    unfold locate_payload
    rw [if_neg (by simp [hdirect]), hch, find?_append_first _ pre post e hpe hpre]
  · intro root hdirect hall
    unfold locate_payload
    rw [if_neg (by simp [hdirect]),
      List.find?_eq_none.mpr (fun x hx => by simp [hall x hx])]
  · intro root p h
    unfold locate_payload at h
    by_cases hd : pathExists root payloadRelPath
    · rw [if_pos hd] at h
      exact Or.inl (Option.some_injective _ h).symm
    · rw [if_neg hd] at h
      cases hf : root.children.find? nestedPayloadEntry with
      | none => rw [hf] at h; cases h
      | some e =>
        rw [hf] at h
        exact Or.inr ⟨e, List.mem_of_find?_eq_some hf, List.find?_some hf,
          (Option.some_injective _ h).symm⟩

theorem locate_payload_spec_witness :
    locate_payload
        (.dir [("IBJts", .dir [("source", .dir [("pythonclient", .dir [])])])])
      = some payloadRelPath :=
  locate_payload_spec.1
    (.dir [("IBJts", .dir [("source", .dir [("pythonclient", .dir [])])])])
    (by decide)
